import Mathlib

/-!
Verification development for the Coppel scraper.

Shallow embedding of the scraping core:
* `src/utils.py` — `clean_text`, `parse_price` (pure text/price normalizer);
* `src/coppel_parser.py` — `parse_plp_products` (listing extraction), with the
  BeautifulSoup document abstracted as a `PlpDoc` holding the JSON-LD ItemList
  entries and the DOM cards selected by the card-selector chain;
* `src/run_scraper.py` — `_retry_delay`, `_should_stop`, the per-URL PDP retry
  loop, the PLP product-row emission loop with de-duplication, and the exit
  signal of `main`.

Strings are modelled as `List Char` (Lean `String.data`); Python floats are
modelled as `ℚ` (every price literal appearing in the program and its tests is
exactly representable and compared against literals parsed the same way).
-/

namespace Coppel

/-- The set of characters Python's `re` module treats as `\s` (and `str.strip`
as whitespace) for unicode strings: ASCII whitespace, the separator control
characters, NEL, NBSP and the unicode space separators. -/
def pyWS (c : Char) : Bool :=
  let n := c.toNat
  (9 ≤ n && n ≤ 13) || n == 32 || (28 ≤ n && n ≤ 31) || n == 133 || n == 160 ||
  n == 0x1680 || (0x2000 ≤ n && n ≤ 0x200a) || n == 0x2028 || n == 0x2029 ||
  n == 0x202f || n == 0x205f || n == 0x3000

/-- Step `text.replace("\xa0", " ")` of `clean_text`. -/
def replaceNbsp (l : List Char) : List Char :=
  l.map (fun c => if c = '\u00A0' then ' ' else c)

/-- Step `re.sub(r"\s+", " ", text)`: each maximal run of whitespace becomes one
ASCII space.  The boolean argument records whether the previous character was
whitespace (i.e. whether we are inside a run already replaced). -/
def collapseAux : Bool → List Char → List Char
  | _, [] => []
  | prev, c :: rest =>
    if pyWS c then
      if prev then collapseAux true rest else ' ' :: collapseAux true rest
    else c :: collapseAux false rest

/-- Python `str.strip()` on the left end. -/
def ldrop (l : List Char) : List Char := l.dropWhile pyWS

/-- Python `str.strip()` on the right end. -/
def rdrop (l : List Char) : List Char := (l.reverse.dropWhile pyWS).reverse

/-- Python `str.strip()` on both ends. -/
def stripWS (l : List Char) : List Char := rdrop (ldrop l)

/-- Function `clean_text` from `src/utils.py`:
`if not text: return ""` then
`re.sub(r"\s+", " ", text.replace("\xa0", " ")).strip()`. -/
def clean_text (l : List Char) : List Char :=
  if l = [] then [] else stripWS (collapseAux false (replaceNbsp l))

/-- Function `clean_text` lifted to `String`. -/
def clean_textS (s : String) : String := ⟨clean_text s.data⟩

/-- The characters kept by `re.sub(r"[^0-9,\.]", "", value)`. -/
def keepPriceChar (c : Char) : Bool := c.isDigit || c == ',' || c == '.'

/-- Value of a digit string read in base 10. -/
def digitsVal (l : List Char) : Nat := l.foldl (fun a c => a * 10 + (c.toNat - 48)) 0

/-- Python's `float(raw)` restricted to the strings reachable in `parse_price`
(no sign, no exponent, no letters): it succeeds exactly on strings of digits
with at most one `'.'` and at least one digit.  This function returns the
integer part, the fraction digits and the fraction length; the rational value
is assembled by `pyFloat`. -/
def pyFloatParts (l : List Char) : Option (Nat × Nat × Nat) :=
  if l.count '.' == 0 then
    if !l.isEmpty && l.all Char.isDigit then some (digitsVal l, 0, 0) else none
  else if l.count '.' == 1 then
    let ip := l.takeWhile (fun c => c != '.')
    let fp := (l.reverse.takeWhile (fun c => c != '.')).reverse
    if (!ip.isEmpty || !fp.isEmpty) && ip.all Char.isDigit && fp.all Char.isDigit then
      some (digitsVal ip, digitsVal fp, fp.length)
    else none
  else none

/-- Python's `float(raw)` as a rational: base-10 value of the parsed parts. -/
def pyFloat (l : List Char) : Option ℚ :=
  (pyFloatParts l).map (fun p => (p.1 : ℚ) + (p.2.1 : ℚ) / (10 : ℚ) ^ p.2.2)

/-- Test `raw.rfind(",") > raw.rfind(".")` when both separators occur: scanning from
the right, the first separator met is the comma. -/
def lastSepComma (l : List Char) : Bool :=
  (l.reverse.find? (fun c => c == ',' || c == '.')) == some ','

/-- Rule `if raw.count(",") > 1 and raw.count(".") == 0: raw = raw.replace(",", "")`. -/
def pnManyCommas (l : List Char) : List Char :=
  if l.count ',' > 1 && l.count '.' == 0 then l.filter (fun c => c != ',') else l

/-- Rule `if raw.count(".") > 1 and raw.count(",") == 0: raw = raw.replace(".", "")`. -/
def pnManyPeriods (l : List Char) : List Char :=
  if l.count '.' > 1 && l.count ',' == 0 then l.filter (fun c => c != '.') else l

/-- The `if "," in raw and "." in raw: ... elif "," in raw and "." not in raw:
...` cascade of `parse_price`: when both separators occur the rightmost one is
the decimal point; when only a single comma occurs it is decimal exactly when
two digits follow it. -/
def pnBothOrComma (l : List Char) : List Char :=
  if l.contains ',' && l.contains '.' then
    if lastSepComma l then
      (l.filter (fun c => c != '.')).map (fun c => if c = ',' then '.' else c)
    else l.filter (fun c => c != ',')
  else if l.contains ',' && !l.contains '.' then
    if (l.reverse.takeWhile (fun c => c != ',')).length == 2 then
      l.map (fun c => if c = ',' then '.' else c)
    else l.filter (fun c => c != ',')
  else l

/-- The separator-normalization statements of `parse_price` in `src/utils.py`,
in program order, starting from `re.sub(r"[^0-9,\.]", "", value)`. -/
def priceNormalize (s : List Char) : List Char :=
  pnBothOrComma (pnManyPeriods (pnManyCommas (s.filter keepPriceChar)))

/-- Function `parse_price` from `src/utils.py`: empty input short-circuits to `None`,
otherwise normalize the separators and run `float`. -/
def parse_price (s : List Char) : Option ℚ :=
  if s.isEmpty then none else pyFloat (priceNormalize s)

/-- Function `parse_price` lifted to `String`. -/
def parsePriceS (s : String) : Option ℚ := parse_price s.data

end Coppel

namespace Coppel

/-! ### Invariants of `clean_text` (claim C7) -/

/-- Every whitespace character occurring in the list is the ASCII space. -/
def allSp (l : List Char) : Prop := ∀ c ∈ l, pyWS c = true → c = ' '

/-- No two adjacent whitespace characters. -/
def noAdj (l : List Char) : Prop :=
  List.Chain' (fun a b => ¬(pyWS a = true ∧ pyWS b = true)) l

/-- The list does not start with a whitespace character. -/
def headOk : List Char → Prop
  | [] => True
  | c :: _ => pyWS c = false

theorem collapseAux_cons_ws_true {c : Char} (h : pyWS c = true) (rest : List Char) :
    collapseAux true (c :: rest) = collapseAux true rest := by
  simp [collapseAux, h]

theorem collapseAux_cons_ws_false {c : Char} (h : pyWS c = true) (rest : List Char) :
    collapseAux false (c :: rest) = ' ' :: collapseAux true rest := by
  simp [collapseAux, h]

theorem collapseAux_cons_not_ws {c : Char} (h : pyWS c = false) (b : Bool)
    (rest : List Char) : collapseAux b (c :: rest) = c :: collapseAux false rest := by
  simp [collapseAux, h]

theorem headOk_collapseAux_true (l : List Char) : headOk (collapseAux true l) := by
  induction l with
  | nil => trivial
  | cons c rest ih =>
    cases h : pyWS c with
    | true => rw [collapseAux_cons_ws_true h]; exact ih
    | false => rw [collapseAux_cons_not_ws h]; exact h

theorem allSp_collapseAux (l : List Char) (b : Bool) : allSp (collapseAux b l) := by
  induction l generalizing b with
  | nil => intro c hc; cases hc
  | cons c rest ih =>
    cases h : pyWS c with
    | true =>
      cases b with
      | true => rw [collapseAux_cons_ws_true h]; exact ih true
      | false =>
        rw [collapseAux_cons_ws_false h]
        intro d hd hws
        rcases List.mem_cons.1 hd with rfl | hd
        · rfl
        · exact ih true d hd hws
    | false =>
      rw [collapseAux_cons_not_ws h]
      intro d hd hws
      rcases List.mem_cons.1 hd with rfl | hd
      · rw [h] at hws; cases hws
      · exact ih false d hd hws

theorem noAdj_collapseAux (l : List Char) (b : Bool) : noAdj (collapseAux b l) := by
  induction l generalizing b with
  | nil => exact List.chain'_nil
  | cons c rest ih =>
    cases h : pyWS c with
    | true =>
      cases b with
      | true => rw [collapseAux_cons_ws_true h]; exact ih true
      | false =>
        rw [collapseAux_cons_ws_false h]
        refine List.chain'_cons'.2 ⟨?_, ih true⟩
        intro y hy
        have hh := headOk_collapseAux_true rest
        intro hcon
        cases hmem : collapseAux true rest with
        | nil => rw [hmem] at hy; cases hy
        | cons z zs =>
          rw [hmem] at hy hh
          simp only [List.head?_cons, Option.mem_def, Option.some.injEq] at hy
          subst hy
          rw [headOk] at hh
          rw [hh] at hcon
          exact absurd hcon.2 (by simp)
    | false =>
      rw [collapseAux_cons_not_ws h]
      refine List.chain'_cons'.2 ⟨?_, ih false⟩
      intro y hy hcon
      rw [h] at hcon
      exact absurd hcon.1 (by simp)

theorem collapseAux_id (l : List Char) (hsp : allSp l) (hadj : noAdj l) :
    collapseAux false l = l ∧ (headOk l → collapseAux true l = l) := by
  induction l with
  | nil => exact ⟨rfl, fun _ => rfl⟩
  | cons c rest ih =>
    have hsp' : allSp rest := fun d hd => hsp d (List.mem_cons_of_mem c hd)
    have hadj' : noAdj rest := (List.chain'_cons'.1 hadj).2
    have hhead := (List.chain'_cons'.1 hadj).1
    obtain ⟨ih1, ih2⟩ := ih hsp' hadj'
    cases h : pyWS c with
    | true =>
      have hc : c = ' ' := hsp c (List.mem_cons_self c rest) h
      have hrest : headOk rest := by
        cases rest with
        | nil => trivial
        | cons d ds =>
          have := hhead d (by simp)
          rw [headOk]
          cases hd : pyWS d with
          | true => exact absurd ⟨h, hd⟩ this
          | false => rfl
      constructor
      · rw [collapseAux_cons_ws_false h, ih2 hrest, hc]
      · intro hko
        rw [headOk] at hko
        rw [h] at hko
        cases hko
    | false =>
      constructor
      · rw [collapseAux_cons_not_ws h, ih1]
      · intro _
        rw [collapseAux_cons_not_ws h, ih1]

/-! ### Invariants of `stripWS` -/

theorem mem_of_mem_dropWhile {c : Char} {p : Char → Bool} {l : List Char}
    (h : c ∈ l.dropWhile p) : c ∈ l := by
  induction l with
  | nil => cases h
  | cons d rest ih =>
    by_cases hd : p d
    · rw [List.dropWhile_cons_of_pos hd] at h
      exact List.mem_cons_of_mem d (ih h)
    · rw [List.dropWhile_cons_of_neg hd] at h
      exact h

theorem chain'_dropWhile {R : Char → Char → Prop} {p : Char → Bool} {l : List Char}
    (h : List.Chain' R l) : List.Chain' R (l.dropWhile p) := by
  induction l with
  | nil => exact h
  | cons d rest ih =>
    by_cases hd : p d
    · rw [List.dropWhile_cons_of_pos hd]
      exact ih ((List.chain'_cons'.1 h).2)
    · rw [List.dropWhile_cons_of_neg hd]
      exact h

theorem headOk_dropWhile (l : List Char) : headOk (l.dropWhile pyWS) := by
  induction l with
  | nil => trivial
  | cons d rest ih =>
    cases hd : pyWS d with
    | true => rw [List.dropWhile_cons_of_pos (by simp [hd])]; exact ih
    | false => rw [List.dropWhile_cons_of_neg (by simp [hd])]; exact hd

theorem dropWhile_of_headOk {l : List Char} (h : headOk l) : l.dropWhile pyWS = l := by
  cases l with
  | nil => rfl
  | cons c rest =>
    rw [headOk] at h
    exact List.dropWhile_cons_of_neg (by simp [h])

theorem noAdj_reverse {l : List Char} (h : noAdj l) : noAdj l.reverse := by
  rw [noAdj, List.chain'_reverse]
  exact h.imp (fun a b hab hc => hab ⟨hc.2, hc.1⟩)

theorem rdrop_decomp (l : List Char) :
    l = rdrop l ++ (l.reverse.takeWhile pyWS).reverse := by
  rw [rdrop, ← List.reverse_append, List.takeWhile_append_dropWhile, List.reverse_reverse]

theorem headOk_rdrop {l : List Char} (h : headOk l) : headOk (rdrop l) := by
  cases hr : rdrop l with
  | nil => trivial
  | cons c rest =>
    have hd := rdrop_decomp l
    rw [hr] at hd
    rw [headOk]
    rw [hd, List.cons_append] at h
    exact h

theorem lastOk_rdrop (l : List Char) : headOk (rdrop l).reverse := by
  rw [rdrop, List.reverse_reverse]
  exact headOk_dropWhile l.reverse

theorem rdrop_of_lastOk {l : List Char} (h : headOk l.reverse) : rdrop l = l := by
  rw [rdrop, dropWhile_of_headOk h, List.reverse_reverse]

theorem allSp_rdrop {l : List Char} (h : allSp l) : allSp (rdrop l) := by
  intro c hc
  refine h c ?_
  rw [rdrop, List.mem_reverse] at hc
  rw [← List.mem_reverse]
  exact mem_of_mem_dropWhile hc

theorem noAdj_rdrop {l : List Char} (h : noAdj l) : noAdj (rdrop l) := by
  exact noAdj_reverse (chain'_dropWhile (noAdj_reverse h))

theorem allSp_stripWS {l : List Char} (h : allSp l) : allSp (stripWS l) := by
  refine allSp_rdrop ?_
  intro c hc
  exact h c (mem_of_mem_dropWhile hc)

theorem noAdj_stripWS {l : List Char} (h : noAdj l) : noAdj (stripWS l) :=
  noAdj_rdrop (chain'_dropWhile h)

theorem headOk_stripWS (l : List Char) : headOk (stripWS l) :=
  headOk_rdrop (headOk_dropWhile l)

theorem lastOk_stripWS (l : List Char) : headOk (stripWS l).reverse :=
  lastOk_rdrop (ldrop l)

theorem stripWS_id {l : List Char} (h1 : headOk l) (h2 : headOk l.reverse) :
    stripWS l = l := by
  rw [stripWS, ldrop, dropWhile_of_headOk h1, rdrop_of_lastOk h2]

theorem replaceNbsp_of_allSp {l : List Char} (h : allSp l) : replaceNbsp l = l := by
  rw [replaceNbsp]
  induction l with
  | nil => rfl
  | cons c rest ih =>
    have hc : c ≠ '\u00A0' := by
      intro hcon
      have : pyWS c = true := by rw [hcon]; decide
      have := h c (List.mem_cons_self c rest) this
      rw [hcon] at this
      cases this
    rw [List.map_cons, if_neg hc,
      ih (fun d hd => h d (List.mem_cons_of_mem c hd))]

theorem clean_text_props (l : List Char) :
    allSp (clean_text l) ∧ noAdj (clean_text l) ∧ headOk (clean_text l) ∧
      headOk (clean_text l).reverse := by
  by_cases h : l = []
  · subst h
    have h0 : clean_text ([] : List Char) = [] := rfl
    rw [h0]
    exact ⟨fun c hc => absurd hc (List.not_mem_nil c), List.chain'_nil, True.intro, True.intro⟩
  · rw [clean_text, if_neg h]
    exact ⟨allSp_stripWS (allSp_collapseAux _ _), noAdj_stripWS (noAdj_collapseAux _ _),
      headOk_stripWS _, lastOk_stripWS _⟩

theorem clean_text_fixed {m : List Char} (hsp : allSp m) (hadj : noAdj m)
    (hh : headOk m) (hl : headOk m.reverse) : clean_text m = m := by
  by_cases h : m = []
  · subst h; rfl
  · rw [clean_text, if_neg h, replaceNbsp_of_allSp hsp,
      (collapseAux_id m hsp hadj).1, stripWS_id hh hl]

/-! ### `src/run_scraper.py`: retry delay, runtime ceiling, PDP retry loop,
PLP de-duplication, exit signal -/

/-- Function `_retry_delay` from `src/run_scraper.py`:
`base = 2 ** attempt; return min(15.0, base + (0.5 * attempt))`. -/
def _retry_delay (attempt : ℕ) : ℚ :=
  min 15 ((2 : ℚ) ^ attempt + (1 / 2) * attempt)

/-- Function `_should_stop` from `src/run_scraper.py`.  `now` models the value of
`time.time()` at the moment of the call. -/
def _should_stop (start_time : ℚ) (max_runtime_sec : ℤ) (now : ℚ) : Bool :=
  if max_runtime_sec ≤ 0 then false
  else decide (now - start_time > (max_runtime_sec : ℚ))

/-- Outcome of one attempt of the PDP per-URL loop in `run_pdp`:
`blocked` — `detect_block` returned true (status BLOCK, debug capture, break);
`okc` — the page was fetched and parsed (status OK, break);
`exc` — some call in the attempt raised (status FAIL, retry or exhaust). -/
inductive Outcome where
  | blocked
  | okc
  | exc
deriving DecidableEq

/-- The `for attempt in range(1, max_retries_per_url + 1)` loop of `run_pdp`,
one URL.  `fuel` is the number of remaining loop iterations (initially the
retry ceiling), `attempt` the 1-based attempt counter, and the accumulator is
the pair `(row["attempts"], row["status"])`.  A blocked or successful attempt
ends the loop (`break` runs after both branches of the `if blocked` test);
an exception retries while `attempt < max_retries_per_url`. -/
def pdpIter (oracle : ℕ → Outcome) (maxR : ℕ) : ℕ → ℕ → ℕ × String → ℕ × String
  | 0, _, row => row
  | fuel + 1, attempt, _ =>
    match oracle attempt with
    | .blocked => (attempt, "BLOCK")
    | .okc => (attempt, "OK")
    | .exc =>
      if attempt < maxR then pdpIter oracle maxR fuel (attempt + 1) (attempt, "FAIL")
      else (attempt, "RETRY_EXHAUSTED")

/-- The per-URL state machine of `run_pdp`: final `(attempts, status)` for one
URL, given each attempt's outcome. -/
def run_pdp_url (oracle : ℕ → Outcome) (maxR : ℕ) : ℕ × String :=
  pdpIter oracle maxR maxR 1 (0, "")

theorem pdpIter_succ (oracle : ℕ → Outcome) (maxR fuel attempt : ℕ)
    (row : ℕ × String) :
    pdpIter oracle maxR (fuel + 1) attempt row =
      match oracle attempt with
      | .blocked => (attempt, "BLOCK")
      | .okc => (attempt, "OK")
      | .exc =>
        if attempt < maxR then pdpIter oracle maxR fuel (attempt + 1) (attempt, "FAIL")
        else (attempt, "RETRY_EXHAUSTED") := rfl

/-- The product-row emission loop of `run_plp` (the `for product in products:`
body), restricted to the data it consults: the resolved product URLs, in
order, across the whole walk (the `seen` set persists across pages).  A URL is
skipped iff it is non-empty and already in `seen`; otherwise it is added to
`seen` and one row is emitted for it. -/
def plpEmit : List String → List String → List String
  | _, [] => []
  | seen, u :: rest =>
    if u ≠ "" ∧ u ∈ seen then plpEmit seen rest
    else u :: plpEmit (u :: seen) rest

theorem plpEmit_cons (seen : List String) (v : String) (rest : List String) :
    plpEmit seen (v :: rest) =
      if v ≠ "" ∧ v ∈ seen then plpEmit seen rest
      else v :: plpEmit (v :: seen) rest := rfl

/-- A result row, restricted to the field the exit signal of `main` consults.
`main` builds each row as a dict and returns `0 if ok_count > 0 else 1` where
`ok_count` counts rows with `row.get("status") == "OK"`. -/
structure Row where
  status : String

/-- The return value of `main` in `src/run_scraper.py`:
`ok_count = sum(1 for row in rows if row.get("status") == "OK")`;
`return 0 if ok_count > 0 else 1`. -/
def mainExitCode (rows : List Row) : ℕ :=
  if 0 < rows.countP (fun r => r.status == "OK") then 0 else 1

/-! ### Claim theorems (controller and normalizer algebra) -/

/-- C7: `clean_text` is idempotent: for every string `s`,
`clean_text (clean_text s) = clean_text s`. -/
theorem c7_clean_text_idempotent (s : String) :
    clean_textS (clean_textS s) = clean_textS s := by
  obtain ⟨hsp, hadj, hh, hl⟩ := clean_text_props s.data
  show (⟨clean_text (clean_text s.data)⟩ : String) = ⟨clean_text s.data⟩
  rw [clean_text_fixed hsp hadj hh hl]

/-- C6: the retry backoff delay equals `min(15, 2^attempt + 0.5*attempt)`
seconds; for every attempt number `n ≥ 1` it is non-decreasing in `n` and
never exceeds the 15-second cap. -/
theorem c6_retry_delay_monotone_capped (n : ℕ) (_h : 1 ≤ n) :
    _retry_delay n = min 15 ((2 : ℚ) ^ n + (1 / 2) * n) ∧
    _retry_delay n ≤ _retry_delay (n + 1) ∧ _retry_delay n ≤ 15 := by
  refine ⟨rfl, ?_, min_le_left _ _⟩
  refine min_le_min (le_refl _) (add_le_add ?_ ?_)
  · exact pow_le_pow_right₀ (by norm_num) (Nat.le_succ n)
  · have hc : ((n : ℚ)) ≤ ((n + 1 : ℕ) : ℚ) := by exact_mod_cast Nat.le_succ n
    exact mul_le_mul_of_nonneg_left hc (by norm_num)

/-- Witness for C6 at `n = 1`. -/
theorem c6_retry_delay_witness :
    _retry_delay 1 ≤ _retry_delay 2 ∧ _retry_delay 1 ≤ 15 :=
  ⟨(c6_retry_delay_monotone_capped 1 (by norm_num)).2.1,
   (c6_retry_delay_monotone_capped 1 (by norm_num)).2.2⟩

/-- C9: when the configured maximum runtime is zero or negative, the global
runtime ceiling is disabled: `_should_stop` returns `false` for every start
time and every current time. -/
theorem c9_should_stop_disabled (m : ℤ) (hm : m ≤ 0) :
    ∀ start_time now : ℚ, _should_stop start_time m now = false := by
  intro start_time now
  simp [_should_stop, hm]

/-- Witness for C9: ceiling 0, a run already 1000000 seconds old. -/
theorem c9_should_stop_witness : _should_stop 0 0 1000000 = false :=
  c9_should_stop_disabled 0 (by decide) 0 1000000

/-- C3 counterexample: ceiling 3 and every attempt blocked.  Attempt 1's
outcome is BLOCK and 1 is below the ceiling 3, yet the loop performs no
second attempt: the final row is `(attempts, status) = (1, "BLOCK")`.  The
claim that the state machine performs another attempt (final attempt count at
least 2) is false. -/
theorem c3_counterexample :
    run_pdp_url (fun _ => Outcome.blocked) 3 = (1, "BLOCK") ∧
    ¬ 2 ≤ (run_pdp_url (fun _ => Outcome.blocked) 3).1 := by
  constructor
  · rfl
  · decide

/-- C3 amended: a detected block is terminal for the whole per-URL loop, not
just for the attempt: if attempts `1 .. a-1` raise and attempt `a ≤ ceiling`
is blocked, the loop stops at attempt `a` with status BLOCK — it never
retries after a block, unlike after a hard failure. -/
theorem c3_block_ends_retrying (oracle : ℕ → Outcome) (maxR a : ℕ)
    (h1 : 1 ≤ a) (h2 : a ≤ maxR)
    (hexc : ∀ i, 1 ≤ i → i < a → oracle i = Outcome.exc)
    (hblk : oracle a = Outcome.blocked) :
    run_pdp_url oracle maxR = (a, "BLOCK") := by
  have key : ∀ fuel attempt row, attempt ≤ a → maxR + 1 = fuel + attempt →
      (∀ i, attempt ≤ i → i < a → oracle i = Outcome.exc) →
      pdpIter oracle maxR fuel attempt row = (a, "BLOCK") := by
    intro fuel
    induction fuel with
    | zero => intro attempt row ha hf _; omega
    | succ f ih =>
      intro attempt row ha hf hx
      by_cases he : attempt = a
      · subst he
        rw [pdpIter_succ, hblk]
      · have hlt : attempt < a := lt_of_le_of_ne ha he
        have hxa : oracle attempt = Outcome.exc := hx attempt (le_refl _) hlt
        rw [pdpIter_succ, hxa]
        show (if attempt < maxR then
            pdpIter oracle maxR f (attempt + 1) (attempt, "FAIL")
          else (attempt, "RETRY_EXHAUSTED")) = (a, "BLOCK")
        rw [if_pos (by omega)]
        exact ih (attempt + 1) _ (by omega) (by omega)
          (fun i hi1 hi2 => hx i (by omega) hi2)
  exact key maxR 1 (0, "") h1 (by omega)
    (fun i hi1 hi2 => hexc i hi1 hi2)

/-- Witness for the amended C3: first attempt raises, second is blocked,
ceiling 3 — the loop ends at attempt 2 with status BLOCK. -/
theorem c3_block_ends_retrying_witness :
    run_pdp_url (fun i => if i = 1 then Outcome.exc else Outcome.blocked) 3 = (2, "BLOCK") :=
  c3_block_ends_retrying (fun i => if i = 1 then Outcome.exc else Outcome.blocked) 3 2
    (by norm_num) (by norm_num)
    (fun i hi1 hi2 => by
      have hi : i = 1 := by omega
      subst hi
      rfl)
    (by rfl)

/-- Auxiliary count identity for the PLP de-duplication loop: for a non-empty
URL `u`, the number of rows emitted for `u` is 1 if `u` occurs in the product
stream and is not already in `seen`, and 0 otherwise. -/
theorem plpEmit_count (u : String) (hu : u ≠ "") :
    ∀ (ps seen : List String),
      List.count u (plpEmit seen ps) =
        if u ∈ seen then 0 else if u ∈ ps then 1 else 0 := by
  intro ps
  induction ps with
  | nil =>
    intro seen
    show (List.count u [] = _)
    simp [List.count_nil]
  | cons v rest ih =>
    intro seen
    by_cases hv : v ≠ "" ∧ v ∈ seen
    · rw [plpEmit_cons, if_pos hv, ih seen]
      by_cases hus : u ∈ seen
      · rw [if_pos hus, if_pos hus]
      · have huv : u ≠ v := fun hh => hus (hh ▸ hv.2)
        rw [if_neg hus, if_neg hus]
        by_cases hur : u ∈ rest
        · rw [if_pos hur, if_pos (List.mem_cons_of_mem v hur)]
        · rw [if_neg hur, if_neg (fun hh => hur (by
            rcases List.mem_cons.1 hh with h | h
            · exact absurd h huv
            · exact h))]
    · rw [plpEmit_cons, if_neg hv, List.count_cons, ih (v :: seen)]
      by_cases huv : u = v
      · subst huv
        have hns : u ∉ seen := fun hs => hv ⟨hu, hs⟩
        have hnc : u ∈ u :: seen := List.mem_cons_self u seen
        rw [if_pos hnc, if_neg hns, if_pos (List.mem_cons_self u rest)]
        simp
      · have h1 : (u ∈ v :: seen) ↔ (u ∈ seen) := by
          simp [List.mem_cons, huv]
        have h2 : (u ∈ v :: rest) ↔ (u ∈ rest) := by
          simp [List.mem_cons, huv]
        have hbe : (v == u) = false := by
          rw [beq_eq_false_iff_ne]
          exact fun hh => huv hh.symm
        by_cases hus : u ∈ seen
        · rw [if_pos (h1.2 hus), if_pos hus, hbe]
          simp
        · rw [if_neg (fun hh => hus (h1.1 hh)), if_neg hus, hbe]
          by_cases hur : u ∈ rest
          · rw [if_pos hur, if_pos (h2.2 hur)]
            simp
          · rw [if_neg hur, if_neg (fun hh => hur (h2.1 hh))]
            simp

/-- C5: in a PLP walk, for every non-empty resolved product URL at most one
product row with that URL is emitted, and a URL occurring anywhere in the
(possibly multi-page) product stream yields exactly one row. -/
theorem c5_plp_dedup (ps : List String) (u : String) (hu : u ≠ "") :
    List.count u (plpEmit [] ps) ≤ 1 ∧
    (u ∈ ps → List.count u (plpEmit [] ps) = 1) := by
  have h := plpEmit_count u hu ps []
  rw [if_neg (List.not_mem_nil u)] at h
  constructor
  · rw [h]
    by_cases hp : u ∈ ps
    · rw [if_pos hp]
    · rw [if_neg hp]; omega
  · intro hm
    rw [h, if_pos hm]

/-- Witness for C5: page 1 yields `["a", "b"]`, page 2 repeats `"a"`; exactly
one row for `"a"` is emitted. -/
theorem c5_plp_dedup_witness : List.count "a" (plpEmit [] ["a", "b", "a"]) = 1 :=
  (c5_plp_dedup ["a", "b", "a"] "a" (by decide)).2 (by decide)

/-- C10: listing items with an empty `product_url` bypass de-duplication:
every occurrence of the empty URL in the product stream produces its own row,
whatever is already in `seen`. -/
theorem c10_empty_url_bypasses_dedup (seen ps : List String) :
    List.count "" (plpEmit seen ps) = List.count "" ps := by
  induction ps generalizing seen with
  | nil => rfl
  | cons v rest ih =>
    by_cases hv : v ≠ "" ∧ v ∈ seen
    · rw [plpEmit_cons, if_pos hv, ih seen, List.count_cons]
      have hne : (v == "") = false := by
        rw [beq_eq_false_iff_ne]
        exact hv.1
      rw [hne]
      simp
    · rw [plpEmit_cons, if_neg hv, List.count_cons, List.count_cons, ih (v :: seen)]

/-- C8: the run's exit signal is success (0) iff at least one output row has
status OK, and failure (1) otherwise. -/
theorem c8_exit_signal (rows : List Row) :
    (mainExitCode rows = 0 ↔ ∃ r ∈ rows, r.status = "OK") ∧
    (mainExitCode rows = 1 ↔ ¬ ∃ r ∈ rows, r.status = "OK") := by
  have hiff : 0 < rows.countP (fun r => r.status == "OK") ↔
      ∃ r ∈ rows, r.status = "OK" := by
    rw [List.countP_pos_iff]
    constructor
    · rintro ⟨r, hr, hb⟩
      exact ⟨r, hr, by simpa using hb⟩
    · rintro ⟨r, hr, hb⟩
      exact ⟨r, hr, by simp [hb]⟩
  by_cases he : ∃ r ∈ rows, r.status = "OK"
  · rw [mainExitCode, if_pos (hiff.2 he)]
    simp [he]
  · rw [mainExitCode, if_neg (fun hp => he (hiff.1 hp))]
    simp [he]

/-! ### `src/coppel_parser.py`: listing extraction (`parse_plp_products`)

The BeautifulSoup layer is abstracted: a `PlpDoc` carries the JSON-LD
ItemList entries (the output of `_extract_item_list`), the DOM cards matched
by the first card selector that matched anything, and the breadcrumb text of
the whole page (the result of `_first_text(soup, [".breadcrumb", ...])`).
Each card carries its first link (href and text), the text of its first
`h2`/`h3` heading, and the two prices `extract_prices` computes on the card's
subtree.  Product dicts are association lists in construction order, so the
shape (which keys are present) is part of the model. -/

/-- The `"offers"` sub-dict of a JSON-LD ItemList entry. -/
structure LdOffers where
  price : Option String
  priceCurrency : Option String
deriving DecidableEq

/-- One entry of the JSON-LD ItemList (`item.get("item", \x7b\x7d)`). -/
structure LdItem where
  name : Option String
  offers : Option LdOffers
  url : Option String
deriving DecidableEq

/-- The first `<a href=...>` of a card: `card.find("a", href=True)`. -/
structure CardLink where
  href : String
  text : String
deriving DecidableEq

/-- One DOM card from the first matching card selector. -/
structure Card where
  link : Option CardLink
  headingText : Option String
  priceRegular : Option ℚ
  pricePromo : Option ℚ
deriving DecidableEq

/-- A parsed listing page. -/
structure PlpDoc where
  itemList : List LdItem
  cards : List Card
  breadcrumb : String
deriving DecidableEq

/-- A value of a product dict: a string field or a parsed price. -/
inductive PVal where
  | str (v : String)
  | price (v : Option ℚ)
deriving DecidableEq

/-- A product dict, as an association list in construction order. -/
abbrev PDict := List (String × PVal)

/-- Expression `str(item.get("offers", \x7b\x7d).get("price", ""))`. -/
def ldPriceStr (it : LdItem) : String :=
  match it.offers with
  | none => ""
  | some o => o.price.getD ""

/-- Expression `item.get("offers", \x7b\x7d).get("priceCurrency", "MXN")`. -/
def ldCurrency (it : LdItem) : String :=
  match it.offers with
  | none => "MXN"
  | some o => o.priceCurrency.getD "MXN"

/-- The dict built for one JSON-LD ItemList entry in `parse_plp_products`
(note: no `"category"` key is written on this path). -/
def ldProduct (it : LdItem) : PDict :=
  [("title", .str (clean_textS (it.name.getD ""))),
   ("price_regular", .price (parsePriceS (ldPriceStr it))),
   ("price_promo", .price none),
   ("currency", .str (ldCurrency it)),
   ("product_url", .str (it.url.getD ""))]

/-- Expression `_get_text(card.find(["h2", "h3"])) or _get_text(link)`. -/
def cardTitle (c : Card) : String :=
  let h := clean_textS (c.headingText.getD "")
  if h ≠ "" then h else clean_textS ((c.link.map CardLink.text).getD "")

/-- The dict built for one DOM card in `parse_plp_products`. -/
def cardProduct (doc : PlpDoc) (c : Card) : PDict :=
  [("title", .str (cardTitle c)),
   ("price_regular", .price c.priceRegular),
   ("price_promo", .price c.pricePromo),
   ("currency", .str "MXN"),
   ("product_url", .str ((c.link.map CardLink.href).getD "")),
   ("category", .str doc.breadcrumb)]

/-- Expression `base_url.rstrip("/")`: drop every trailing slash. -/
def rstripSlashes (s : String) : String :=
  ⟨(s.data.reverse.dropWhile (fun c => c == '/')).reverse⟩

/-- Test `product["product_url"].startswith("/")`. -/
def startsWithSlash (u : String) : Bool :=
  match u.data with
  | [] => false
  | c :: _ => c == '/'

/-- Accessor `product.get("product_url")` of a product dict (a string on both build
paths). -/
def getUrlVal (d : PDict) : String :=
  match d.lookup "product_url" with
  | some (.str u) => u
  | _ => ""

/-- The in-place assignment `product["product_url"] = ...`. -/
def setUrlVal (d : PDict) (u : String) : PDict :=
  d.map (fun kv => if kv.1 = "product_url" then ("product_url", PVal.str u) else kv)

/-- The normalization loop of `parse_plp_products`:
`if product.get("product_url") and product["product_url"].startswith("/"):
product["product_url"] = base_url.rstrip("/") + product["product_url"]`. -/
def normalizeProduct (base : String) (d : PDict) : PDict :=
  let u := getUrlVal d
  if u ≠ "" ∧ startsWithSlash u then setUrlVal d (rstripSlashes base ++ u) else d

/-- Function `parse_plp_products` from `src/coppel_parser.py`: the JSON-LD products
followed by the DOM-card products, each URL-normalized against `base_url`. -/
def parse_plp_products (doc : PlpDoc) (base : String) : List PDict :=
  ((doc.itemList.map ldProduct) ++ (doc.cards.map (cardProduct doc))).map
    (normalizeProduct base)

/-- The keys of a product dict, in construction order. -/
def keysOf (d : PDict) : List String := d.map Prod.fst

/-- The five keys of a JSON-LD-sourced listing item. -/
def ldKeys : List String :=
  ["title", "price_regular", "price_promo", "currency", "product_url"]

/-- The six keys of a DOM-card-sourced listing item. -/
def cardKeys : List String :=
  ["title", "price_regular", "price_promo", "currency", "product_url", "category"]

theorem keysOf_setUrlVal (d : PDict) (u : String) :
    keysOf (setUrlVal d u) = keysOf d := by
  rw [keysOf, setUrlVal, List.map_map, keysOf]
  apply List.map_congr_left
  intro kv _
  by_cases h : kv.1 = "product_url"
  · simp [h]
  · simp [h]

theorem keysOf_normalizeProduct (base : String) (d : PDict) :
    keysOf (normalizeProduct base d) = keysOf d := by
  rw [normalizeProduct]
  by_cases h : getUrlVal d ≠ "" ∧ startsWithSlash (getUrlVal d)
  · rw [if_pos h, keysOf_setUrlVal]
  · rw [if_neg h]

/-! ### No-digit inputs are unparseable (for claim C1) -/

/-- The string has no decimal digit at all. -/
def noDigits (l : List Char) : Prop := ∀ c ∈ l, c.isDigit = false

theorem noDigits_filter {l : List Char} {p : Char → Bool} (h : noDigits l) :
    noDigits (l.filter p) :=
  fun c hc => h c (List.mem_of_mem_filter hc)

theorem mem_of_mem_takeWhile {c : Char} {p : Char → Bool} {l : List Char}
    (h : c ∈ l.takeWhile p) : c ∈ l := by
  induction l with
  | nil => cases h
  | cons d rest ih =>
    by_cases hd : p d
    · rw [List.takeWhile_cons_of_pos hd] at h
      rcases List.mem_cons.1 h with rfl | h
      · exact List.mem_cons_self c rest
      · exact List.mem_cons_of_mem d (ih h)
    · rw [List.takeWhile_cons_of_neg hd] at h
      cases h

theorem noDigits_takeWhile {l : List Char} {p : Char → Bool} (h : noDigits l) :
    noDigits (l.takeWhile p) :=
  fun c hc => h c (mem_of_mem_takeWhile hc)

theorem noDigits_reverse {l : List Char} (h : noDigits l) : noDigits l.reverse :=
  fun c hc => h c (List.mem_reverse.1 hc)

theorem noDigits_commaMap {l : List Char} (h : noDigits l) :
    noDigits (l.map (fun c => if c = ',' then '.' else c)) := by
  intro c hc
  rcases List.mem_map.1 hc with ⟨d, hd, rfl⟩
  by_cases hcm : d = ','
  · rw [if_pos hcm]
    decide
  · rw [if_neg hcm]
    exact h d hd

theorem noDigits_pnManyCommas {l : List Char} (h : noDigits l) :
    noDigits (pnManyCommas l) := by
  rw [pnManyCommas]
  split
  · exact noDigits_filter h
  · exact h

theorem noDigits_pnManyPeriods {l : List Char} (h : noDigits l) :
    noDigits (pnManyPeriods l) := by
  rw [pnManyPeriods]
  split
  · exact noDigits_filter h
  · exact h

theorem noDigits_pnBothOrComma {l : List Char} (h : noDigits l) :
    noDigits (pnBothOrComma l) := by
  rw [pnBothOrComma]
  split
  · split
    · exact noDigits_commaMap (noDigits_filter h)
    · exact noDigits_filter h
  · split
    · split
      · exact noDigits_commaMap h
      · exact noDigits_filter h
    · exact h

theorem all_isDigit_eq_false {m : List Char} (h : noDigits m) (hne : m ≠ []) :
    m.all Char.isDigit = false := by
  cases m with
  | nil => exact absurd rfl hne
  | cons c rest => simp [List.all_cons, h c (List.mem_cons_self c rest)]

theorem pyFloatParts_none_of_noDigits {l : List Char} (h : noDigits l) :
    pyFloatParts l = none := by
  rw [pyFloatParts]
  by_cases h0 : l.count '.' = 0
  · rw [if_pos (by simp [h0])]
    cases hl : l with
    | nil => simp
    | cons c rest =>
      rw [← hl]
      rw [all_isDigit_eq_false h (by rw [hl]; exact List.cons_ne_nil c rest)]
      simp
  · rw [if_neg (by simp [h0])]
    by_cases h1 : l.count '.' = 1
    · rw [if_pos (by simp [h1])]
      dsimp only
      have hip : noDigits (l.takeWhile (fun c => c != '.')) := noDigits_takeWhile h
      have hfp : noDigits ((l.reverse.takeWhile (fun c => c != '.')).reverse) :=
        noDigits_reverse (noDigits_takeWhile (noDigits_reverse h))
      by_cases hie : l.takeWhile (fun c => c != '.') = []
      · by_cases hfe : (l.reverse.takeWhile (fun c => c != '.')).reverse = []
        · simp [hie, hfe]
        · rw [all_isDigit_eq_false hfp hfe]
          simp
      · rw [all_isDigit_eq_false hip hie]
        simp
    · rw [if_neg (by simp [h1])]

theorem parse_price_none_of_noDigits (s : List Char) (h : noDigits s) :
    parse_price s = none := by
  cases hs : s.isEmpty
  · have hnd : noDigits (priceNormalize s) :=
      noDigits_pnBothOrComma (noDigits_pnManyPeriods (noDigits_pnManyCommas
        (noDigits_filter h)))
    rw [parse_price, if_neg (by simp [hs]), pyFloat, pyFloatParts_none_of_noDigits hnd]
    rfl
  · rw [parse_price, if_pos (by simp [hs])]

/-! ### Claim theorems (price parser and listing extraction) -/

/-- C1: `parse_price` returns 12345.0 for `"$12,345"`, 12345.67 for
`"$12,345.67"` and for `"12.345,67"`; the empty string and every digit-free
(hence unparseable) string yield `None`; being a total function of its input,
it never raises. -/
theorem c1_parse_price (s : String) (hnd : ∀ c ∈ s.data, c.isDigit = false) :
    parsePriceS "$12,345" = some 12345 ∧
    parsePriceS "$12,345.67" = some (1234567 / 100) ∧
    parsePriceS "12.345,67" = some (1234567 / 100) ∧
    parsePriceS "" = none ∧
    parsePriceS s = none := by
  refine ⟨?_, ?_, ?_, by decide, parse_price_none_of_noDigits s.data hnd⟩
  · have h : pyFloatParts (priceNormalize "$12,345".data) = some (12345, 0, 0) := by decide
    have h2 : ("$12,345".data.isEmpty) = false := by decide
    simp [parsePriceS, parse_price, pyFloat, h, h2]
  · have h : pyFloatParts (priceNormalize "$12,345.67".data) = some (12345, 67, 2) := by decide
    have h2 : ("$12,345.67".data.isEmpty) = false := by decide
    simp [parsePriceS, parse_price, pyFloat, h, h2]
    norm_num
  · have h : pyFloatParts (priceNormalize "12.345,67".data) = some (12345, 67, 2) := by decide
    have h2 : ("12.345,67".data.isEmpty) = false := by decide
    simp [parsePriceS, parse_price, pyFloat, h, h2]
    norm_num

/-- Witness for C1 on the digit-free string `"n/a"`. -/
theorem c1_parse_price_witness : parsePriceS "n/a" = none :=
  (c1_parse_price "n/a" (by decide)).2.2.2.2

/-- The listing page of claim C2: one card whose link is the root-relative
path `/p/123`. -/
def docC2 : PlpDoc :=
  { itemList := []
    cards := [{ link := some { href := "/p/123", text := "Widget" }
                headingText := some "Widget"
                priceRegular := none
                pricePromo := none }]
    breadcrumb := "" }

/-- C2 counterexample: with base URL `https://site.example/cat/`, the resolved
product URL is NOT `https://site.example/p/123` — the code concatenates onto
the full base URL (path included), not onto its origin. -/
theorem c2_counterexample :
    ¬ (parse_plp_products docC2 "https://site.example/cat/").map getUrlVal =
      ["https://site.example/p/123"] := by
  decide

/-- C2 amended: a root-relative product path `/p/123` combined with base URL
`https://site.example/cat/` yields `https://site.example/cat/p/123`: the
trailing slash of the base is stripped, the leading slash of the path is
preserved, and the path is appended to the whole base URL. -/
theorem c2_url_resolution :
    (parse_plp_products docC2 "https://site.example/cat/").map getUrlVal =
      ["https://site.example/cat/p/123"] := by
  decide

/-- The listing page of claim C4: one JSON-LD ItemList entry and no DOM
cards. -/
def docC4 : PlpDoc :=
  { itemList := [{ name := some "Pantalla X"
                   offers := none
                   url := some "https://site.example/p/9" }]
    cards := []
    breadcrumb := "" }

/-- C4 counterexample: an item produced from the structured-data (JSON-LD
ItemList) source has no `category` key at all, so not every ListingItem
contains all six fields. -/
theorem c4_counterexample :
    ¬ (∀ d ∈ parse_plp_products docC4 "https://site.example/",
        "category" ∈ keysOf d) := by
  decide

/-- C4 amended: every ListingItem has the five keys `title`, `price_regular`,
`price_promo`, `currency`, `product_url` in construction order; items from
the DOM card source additionally end with `category`, while items from the
structured-data source consist of exactly the five keys (no `category`). -/
theorem c4_item_shape (doc : PlpDoc) (base : String) :
    ∀ d ∈ parse_plp_products doc base, keysOf d = ldKeys ∨ keysOf d = cardKeys := by
  intro d hd
  rw [parse_plp_products] at hd
  rcases List.mem_map.1 hd with ⟨d0, hd0, rfl⟩
  rw [keysOf_normalizeProduct]
  rcases List.mem_append.1 hd0 with h | h
  · rcases List.mem_map.1 h with ⟨it, _, rfl⟩
    left
    rfl
  · rcases List.mem_map.1 h with ⟨c, _, rfl⟩
    right
    rfl

/-- Witness for the amended C4 on the concrete page `docC4`. -/
theorem c4_item_shape_witness :
    keysOf ((parse_plp_products docC4 "https://site.example/").headD []) = ldKeys ∨
    keysOf ((parse_plp_products docC4 "https://site.example/").headD []) = cardKeys :=
  c4_item_shape docC4 "https://site.example/"
    ((parse_plp_products docC4 "https://site.example/").headD []) (by decide)

end Coppel
